import Mathlib

/-!
# Verification of the Ansa grid's view-derivation and layout engine

Shallow embedding of `src/frontend/src/App.tsx` (the later of the two
revisions contained in that file, the one the application executes:
`App` starting at line 1398).  JavaScript machine numbers are modelled
as exact decimals (`JsNum`, an integer numerator over a power of ten)
with `Option` for `NaN`: every numeric literal appearing in the program
and in the claims is exactly representable in a double, and comparisons
and subtraction signs agree with the exact rational ones.  Strings are
Lean `String`, and `Row = Record<string, string>` is an association
list.
-/

open scoped List

namespace Ansa

/-- A data row: `Row = Record<string, string>`.  A key that is absent
models a JavaScript `undefined` property. -/
abbrev Row := List (String × String)

/-- Property access `row[col]`: `none` models `undefined`. -/
def Row.get (r : Row) (c : String) : Option String :=
  (r.find? (fun p => p.1 = c)).map (fun p => p.2)

/-- The idiom `row[col] || ""` (also `row[col] ?? ""`; for string-valued
properties both coerce a missing value to the empty string). -/
def Row.getD (r : Row) (c : String) : String :=
  (Row.get r c).getD ""

/-- Model of `String.prototype.toLowerCase()` (ASCII case folding, which
covers every value the claims exercise). -/
def jsToLower (s : String) : String :=
  String.mk (s.toList.map Char.toLower)

/-- Boolean prefix test on character lists. -/
def isPrefixB : List Char → List Char → Bool
  | [], _ => true
  | _ :: _, [] => false
  | a :: as, b :: bs => a = b && isPrefixB as bs

/-- Boolean substring containment on character lists (needle first). -/
def containsSub (pat : List Char) : List Char → Bool
  | [] => isPrefixB pat []
  | c :: rest => isPrefixB pat (c :: rest) || containsSub pat rest

/-- Model of `haystack.includes(needle)` for strings. -/
def jsIncludes (s pat : String) : Bool :=
  containsSub pat.toList s.toList

/-- JavaScript whitespace (the characters `String.prototype.trim` and
`Number` strip; the exotic Unicode space classes never occur in the
claims' data). -/
def isJsWs (c : Char) : Bool :=
  c = ' ' || c = '\t' || c = '\n' || c = '\r' || c = '\x0b' || c = '\x0c'

/-- Model of `s.trim()`: strip leading and trailing whitespace. -/
def jsTrim (s : String) : String :=
  String.mk (((s.toList.dropWhile isJsWs).reverse.dropWhile isJsWs).reverse)

/-- Numeric value of a string of decimal digits. -/
def natFromDigits (cs : List Char) : Nat :=
  cs.foldl (fun n c => n * 10 + (c.toNat - 48)) 0

/-- A JavaScript number obtained from a decimal literal, kept as the
exact decimal `num / 10 ^ exp`.  Comparisons cross-multiply, so every
operation stays in integer arithmetic and is kernel-computable;
`JsNum.toRat` is the value it denotes.  (Every literal the program and
the claims handle is exactly representable this way; rounding to
binary doubles never changes a comparison between such values at the
magnitudes involved.) -/
structure JsNum where
  num : Int
  exp : Nat
deriving DecidableEq, Repr

/-- The rational value of a decimal. -/
def JsNum.toRat (a : JsNum) : ℚ :=
  (a.num : ℚ) / (10 : ℚ) ^ a.exp

/-- Value order on decimals, by cross-multiplication. -/
def JsNum.le (a b : JsNum) : Bool :=
  decide (a.num * (10 : Int) ^ b.exp ≤ b.num * (10 : Int) ^ a.exp)

/-- Strict value order on decimals. -/
def JsNum.lt (a b : JsNum) : Bool :=
  decide (a.num * (10 : Int) ^ b.exp < b.num * (10 : Int) ^ a.exp)

/-- Value equality on decimals (JavaScript `===` on numbers). -/
def JsNum.eqv (a b : JsNum) : Bool :=
  decide (a.num * (10 : Int) ^ b.exp = b.num * (10 : Int) ^ a.exp)

/-- Model of the JavaScript coercion `Number(s)` on string input;
`none` models `NaN`.  It covers the whole fragment the program and the
claims exercise: optionally signed decimal literals with an optional
fraction part, the empty / all-whitespace string coercing to `0`.
(Hexadecimal, binary, octal, exponent and `Infinity` literals, which no
value in the claims takes, are mapped to `NaN`.) -/
def jsNumber (s : String) : Option JsNum :=
  let t := jsTrim s
  match t.toList with
  | [] => some ⟨0, 0⟩
  | l =>
    let sb : Int × List Char :=
      match l with
      | '-' :: rest => (-1, rest)
      | '+' :: rest => (1, rest)
      | _ => (1, l)
    match sb.2.splitOn '.' with
    | [ip] =>
      if ip ≠ [] && ip.all Char.isDigit then
        some ⟨sb.1 * (natFromDigits ip : Int), 0⟩
      else none
    | [ip, fp] =>
      if (ip ≠ [] || fp ≠ []) && ip.all Char.isDigit && fp.all Char.isDigit then
        some ⟨sb.1 * ((natFromDigits ip : Int) * (10 : Int) ^ fp.length +
          (natFromDigits fp : Int)), fp.length⟩
      else none
    | _ => none

/-- Lift of `Number` to a possibly missing value: `Number(undefined)` is
`NaN`. -/
def jsNumberOpt (v : Option String) : Option JsNum :=
  v.bind jsNumber

/-- Model of `Date.parse` / `new Date(s).getTime()` restricted to ISO
`YYYY-MM-DD` dates, mapped to an order-faithful abstract timestamp;
every other string is `NaN` (`none`).  No claim exercises dates; the
model only has to be total and executable. -/
def jsDate (s : String) : Option Int :=
  match s.splitOn "-" with
  | [y, m, d] =>
    if y.length = 4 && m.length = 2 && d.length = 2 &&
        y.toList.all Char.isDigit && m.toList.all Char.isDigit &&
        d.toList.all Char.isDigit &&
        1 ≤ natFromDigits m.toList && natFromDigits m.toList ≤ 12 &&
        1 ≤ natFromDigits d.toList && natFromDigits d.toList ≤ 31 then
      some ((natFromDigits y.toList : Int) * 372 +
        (natFromDigits m.toList : Int) * 31 + (natFromDigits d.toList : Int))
    else none
  | _ => none

/-- Model of `new Date(val).getTime()` where `val` may be `undefined`. -/
def jsDateOpt (v : Option String) : Option Int :=
  v.bind jsDate

/-- `a === b` on numbers that may be `NaN` (`NaN` equals nothing). -/
def jsEqN (a b : Option JsNum) : Bool :=
  match a, b with
  | some x, some y => JsNum.eqv x y
  | _, _ => false

/-- `a > b` on numbers that may be `NaN` (comparison with `NaN` is false). -/
def jsGt (a b : Option JsNum) : Bool :=
  match a, b with
  | some x, some y => JsNum.lt y x
  | _, _ => false

/-- `a < b` on numbers that may be `NaN`. -/
def jsLt (a b : Option JsNum) : Bool :=
  match a, b with
  | some x, some y => JsNum.lt x y
  | _, _ => false

/-- `a >= b` on numbers that may be `NaN`. -/
def jsGe (a b : Option JsNum) : Bool :=
  match a, b with
  | some x, some y => JsNum.le y x
  | _, _ => false

/-- `a <= b` on numbers that may be `NaN`. -/
def jsLe (a b : Option JsNum) : Bool :=
  match a, b with
  | some x, some y => JsNum.le x y
  | _, _ => false

/-- Integer variants for timestamps. -/
def jsEqI (a b : Option Int) : Bool :=
  match a, b with
  | some x, some y => decide (x = y)
  | _, _ => false

/-- `a < b` on timestamps that may be `NaN`. -/
def jsLtI (a b : Option Int) : Bool :=
  match a, b with
  | some x, some y => decide (x < y)
  | _, _ => false

/-- `a > b` on timestamps that may be `NaN`. -/
def jsGtI (a b : Option Int) : Bool :=
  match a, b with
  | some x, some y => decide (y < x)
  | _, _ => false

/-- `a >= b` on timestamps that may be `NaN`. -/
def jsGeI (a b : Option Int) : Bool :=
  match a, b with
  | some x, some y => decide (y ≤ x)
  | _, _ => false

/-- `a <= b` on timestamps that may be `NaN`. -/
def jsLeI (a b : Option Int) : Bool :=
  match a, b with
  | some x, some y => decide (x ≤ y)
  | _, _ => false

/-- The type-inference function (`guessColumnType`, App.tsx 1458-1472).
The per-column override table consists of the single column
`funding_total`, which is always treated as `number`; otherwise the
first row with a non-empty (after trimming) value in the column is
sampled. -/
def guessColumnType (col : String) (data : List Row) : String :=
  if col = "funding_total" then "number"
  else
    match (data.find? (fun row =>
        (Row.getD row col) ≠ "" && jsTrim (Row.getD row col) ≠ "")).bind
        (fun row => Row.get row col) with
    | none => "string"
    | some sample =>
      if (jsNumber sample).isSome then "number"
      else if (jsDate sample).isSome then "date"
      else "string"

/-- An active filter (`{col, type, value, value2, colType}`, App.tsx
1429 and 1907-1925).  `value` and `value2` come from text inputs and are
strings; an untouched `value2` is the empty string. -/
structure Filter where
  col : String
  type : String
  value : String
  value2 : String
  colType : String
deriving DecidableEq, Repr

/-- The `funding_total` normalization (App.tsx 1635):
`val ? val.replace(/[^0-9.-]+/g, "") : "0"`. -/
def stripNonNumeric (v : String) : String :=
  String.mk (v.toList.filter (fun c => c.isDigit || c = '.' || c = '-'))

/-- The cleaned string that gets parsed for a `funding_total` filter
(an absent or empty value is replaced by `"0"` before stripping). -/
def fundingCleanVal (val : Option String) : String :=
  match val with
  | some v => if v = "" then "0" else stripNonNumeric v
  | none => "0"

/-- One predicate application (the body of the inner
`filtered.filter(row => ...)` callback, App.tsx 1629-1685). -/
def matchesFilter (f : Filter) (row : Row) : Bool :=
  let val := Row.get row f.col
  if f.col = "funding_total" && f.colType = "number" then
    -- special handling for funding_total: strip currency symbols etc.
    let num := jsNumber (fundingCleanVal val)
    let filterVal := jsNumber f.value
    let filterVal2 := if f.value2 ≠ "" then jsNumber f.value2 else some ⟨0, 0⟩
    if f.type = "equals" then jsEqN num filterVal
    else if f.type = "gt" then jsGt num filterVal
    else if f.type = "lt" then jsLt num filterVal
    else if f.type = "range" then jsGe num filterVal && jsLe num filterVal2
    else true
  else if f.col = "website" && f.type = "contains" then
    -- special handling for website: direct string search on the raw field
    match Row.get row "website" with
    | some w => w ≠ "" && jsIncludes (jsToLower w) (jsToLower f.value)
    | none => false
  else if f.colType = "number" then
    let num := jsNumberOpt val
    if f.type = "equals" then jsEqN num (jsNumber f.value)
    else if f.type = "gt" then jsGt num (jsNumber f.value)
    else if f.type = "lt" then jsLt num (jsNumber f.value)
    else if f.type = "range" then
      jsGe num (jsNumber f.value) && jsLe num (jsNumber f.value2)
    else true
  else if f.colType = "date" then
    let d := jsDateOpt val
    if f.type = "equals" then jsEqI d (jsDate f.value)
    else if f.type = "before" then jsLtI d (jsDate f.value)
    else if f.type = "after" then jsGtI d (jsDate f.value)
    else if f.type = "range" then jsGeI d (jsDate f.value) && jsLeI d (jsDate f.value2)
    else true
  else
    if f.type = "contains" then
      jsIncludes (jsToLower (val.getD "")) (jsToLower f.value)
    else if f.type = "equals" then decide (val.getD "" = f.value)
    else true

/-- The global-search predicate (the `filtered.filter(row => ...)`
callback of Stage 1, App.tsx 1609-1622): a row matches when its `name`
or its `website` field is truthy and contains the lowercased search
term. -/
def matchesSearch (lower : String) (row : Row) : Bool :=
  (match Row.get row "name" with
   | some s => s ≠ "" && jsIncludes (jsToLower s) lower
   | none => false) ||
  (match Row.get row "website" with
   | some s => s ≠ "" && jsIncludes (jsToLower s) lower
   | none => false)

/-- `filteredData` (App.tsx 1593-1690): fast path, then Stage 1 search
over the fixed columns `name`/`website`, then Stage 2 AND-chained
filters. -/
def filteredData (data : List Row) (trimmedSearch : String)
    (activeFilters : List Filter) : List Row :=
  if trimmedSearch = "" && activeFilters.isEmpty then data
  else
    let lower := jsToLower trimmedSearch
    let afterSearch :=
      if trimmedSearch ≠ "" then data.filter (matchesSearch lower) else data
    if activeFilters.isEmpty then afterSearch
    else activeFilters.foldl
      (fun acc f => acc.filter (fun row => matchesFilter f row)) afterSearch

/-- Three-way comparison on `ℚ` (the sign of the double subtraction
`Number(aVal) - Number(bVal)` that the comparator returns). -/
def qCmp (x y : ℚ) : Int :=
  if x < y then -1 else if x = y then 0 else 1

/-- Strict lexicographic order on character lists (by code point). -/
def charListLt : List Char → List Char → Bool
  | [], [] => false
  | [], _ :: _ => true
  | _ :: _, [] => false
  | a :: as, b :: bs =>
    if a < b then true
    else if b < a then false
    else charListLt as bs

/-- Model of `a.localeCompare(b)`: the sign of the default
lexicographic string comparison (the spec's non-goals exclude
internationalized collation beyond the default order). -/
def strCmp (a b : String) : Int :=
  if charListLt a.toList b.toList then -1
  else if charListLt b.toList a.toList then 1 else 0

/-- Three-way comparison of decimal values (the sign of the double
subtraction the comparator returns in the numeric branch). -/
def numCmp (a b : JsNum) : Int :=
  if JsNum.lt a b then -1 else if JsNum.eqv a b then 0 else 1

/-- The comparator core of `sortedData` (App.tsx 1701-1717): numeric
when both values coerce fully to numbers, else string comparison. -/
def cmpVals (aVal bVal : String) : Int :=
  match jsNumber aVal, jsNumber bVal with
  | some x, some y => numCmp x y
  | _, _ => strCmp aVal bVal

/-- Comparator on rows for a sort column (`a[orderBy] || ""` against
`b[orderBy] || ""`). -/
def rowCmp (orderBy : String) (a b : Row) : Int :=
  cmpVals (Row.getD a orderBy) (Row.getD b orderBy)

/-- The boolean `≤` the stable sort orders by: ascending uses the
comparator as is, descending swaps the arguments (which is what
`Number(bVal) - Number(aVal)` / `bVal.localeCompare(aVal)` compute). -/
def sortLe (orderBy order : String) (a b : Row) : Bool :=
  decide ((if order = "asc" then rowCmp orderBy a b else rowCmp orderBy b a) ≤ 0)

/-- `sortedData` (App.tsx 1693-1721): no sort column means pass
through; otherwise a stable sort (`[...filteredData].sort(cmp)`,
ECMAScript `Array.prototype.sort` is required to be stable) by the
comparator, modelled by `List.mergeSort`. -/
def sortedData (filtered : List Row) (orderBy order : String) : List Row :=
  if orderBy = "" then filtered
  else filtered.mergeSort (fun a b => sortLe orderBy order a b)

/-- The component state that feeds the pipeline and the column layout
(the `useState` cells of `App`, App.tsx 1399-1435): `search` is the
settled (debounced) search box value; the last four fields are the
column-layout model, which the pipeline does not read. -/
structure AppState where
  data : List Row
  search : String
  activeFilters : List Filter
  orderBy : String
  order : String
  visibleColumns : List String
  columnOrder : List String
  customColumnWidths : String → Option Int
  windowWidth : Int

/-- The derived view: `sortedData` over `filteredData` over the settled
trimmed search term — the composition the grid renders. -/
def deriveView (st : AppState) : List Row :=
  sortedData (filteredData st.data (jsTrim st.search) st.activeFilters)
    st.orderBy st.order

/-! ## Column layout model -/

/-- Default column width (App.tsx 1337). -/
def DEFAULT_COL_WIDTH : Int := 180

/-- Minimum column width (App.tsx 1338). -/
def MIN_COL_WIDTH : Int := 80

/-- JavaScript truthiness of `customWidths[col]`: a present, non-zero
number. -/
def truthyWidth : Option Int → Bool
  | some w => w ≠ 0
  | none => false

/-- `customWidths[col] || d`. -/
def widthOr (c : Option Int) (d : Int) : Int :=
  match c with
  | some w => if w = 0 then d else w
  | none => d

/-- `getColumnWidths` (App.tsx 1341-1383) as a function from column
name to assigned width (the record only carries keys from `columns`;
theorems only inspect members of `columns`).  `Int.fdiv` is
`Math.floor` of the real division. -/
def getColumnWidths (columns : List String) (containerWidth : Int)
    (customWidths : String → Option Int) : String → Int :=
  let baseWidths : String → Int := fun col => widthOr (customWidths col) DEFAULT_COL_WIDTH
  let calculatedWidth := (columns.map (fun col => widthOr (customWidths col) DEFAULT_COL_WIDTH)).sum
  if calculatedWidth < containerWidth ∧ 0 < columns.length then
    let columnsWithoutCustomWidth := columns.filter (fun col => !truthyWidth (customWidths col))
    if columnsWithoutCustomWidth ≠ [] then
      let remainingSpace := containerWidth - (columns.map (fun col => widthOr (customWidths col) 0)).sum
      let extraWidth := Int.fdiv remainingSpace columnsWithoutCustomWidth.length
      fun col => if columnsWithoutCustomWidth.contains col then extraWidth else baseWidths col
    else baseWidths
  else baseWidths

/-- The layout state the toggle and drag-reorder handlers mutate. -/
structure LayoutState where
  columnOrder : List String
  visibleColumns : List String
deriving DecidableEq, Repr

/-- `handleToggleColumn` (App.tsx 1876-1880). -/
def handleToggleColumn (prev : List String) (col : String) : List String :=
  if prev.contains col then prev.filter (fun c => c ≠ col) else prev ++ [col]

/-- `onDragEnd` (App.tsx 1883-1889): `splice` the dragged column out
and back in.  The drag library only ever reports a source index inside
the rendered list (a subsequence of `columnOrder`), hence in range; a
destination index is clamped by `splice` semantics. -/
def onDragEnd (order : List String) (source dest : Nat) : List String :=
  if h : source < order.length then
    let removed := order.get ⟨source, h⟩
    let rest := order.eraseIdx source
    rest.insertIdx (min dest rest.length) removed
  else order

/-- A user action on the column layout. -/
inductive LayoutOp where
  | toggle (col : String)
  | reorder (source dest : Nat)

/-- Apply one layout action to the layout state. -/
def applyOp (st : LayoutState) : LayoutOp → LayoutState
  | .toggle col => ⟨st.columnOrder, handleToggleColumn st.visibleColumns col⟩
  | .reorder s d => ⟨onDragEnd st.columnOrder s d, st.visibleColumns⟩

/-- The initial layout: every header column, in dataset order, visible
(App.tsx 1499-1500). -/
def initLayout (headers : List String) : LayoutState :=
  ⟨headers, headers⟩

/-- `displayedColumns` (App.tsx 1724-1727). -/
def displayedColumns (st : LayoutState) : List String :=
  st.columnOrder.filter (fun col => st.visibleColumns.contains col)

/-! ## CSV export and (spec-modelled) ingestion -/

/-- Four-digit lowercase hex rendering of a code point below 0x10000. -/
def hex4 (n : Nat) : List Char :=
  [Nat.digitChar (n / 16 ^ 3 % 16), Nat.digitChar (n / 16 ^ 2 % 16),
   Nat.digitChar (n / 16 % 16), Nat.digitChar (n % 16)]

/-- JSON escape of one character, as produced by `JSON.stringify` on a
string: `"` and `\` get a backslash escape, the named control
characters get their short escapes, other control characters a `\u`
escape, and everything else stands for itself. -/
def jsonEscapeChar (c : Char) : List Char :=
  if c = '"' then ['\\', '"']
  else if c = '\\' then ['\\', '\\']
  else if c = '\x08' then ['\\', 'b']
  else if c = '\x09' then ['\\', 't']
  else if c = '\x0a' then ['\\', 'n']
  else if c = '\x0c' then ['\\', 'f']
  else if c = '\x0d' then ['\\', 'r']
  else if c.toNat < 0x20 then '\\' :: 'u' :: hex4 c.toNat
  else [c]

/-- Model of `JSON.stringify` applied to a string value: a quoted,
character-wise escaped copy. -/
def jsonStringify (s : String) : String :=
  String.mk ('"' :: ((s.toList.map jsonEscapeChar).flatten ++ ['"']))

/-- Model of `Array.prototype.join(sep)`. -/
def joinSep (sep : String) : List String → String
  | [] => ""
  | [x] => x
  | x :: y :: t => x ++ sep ++ joinSep sep (y :: t)

/-- `exportToCsv` (App.tsx 1271-1285), minus the DOM download plumbing:
the CSV text it serializes — an unescaped header line joined with
commas, then one line per row with every field passed through
`JSON.stringify`, the lines joined with newlines. -/
def exportToCsv (rows : List Row) (headers : List String) : String :=
  joinSep "\n"
    (joinSep "," headers ::
      rows.map (fun row =>
        joinSep "," (headers.map (fun h => jsonStringify (Row.getD row h)))))

/-- Scanner mode of the CSV reader: in plain text, inside a quoted
field, or just after a quote met inside a quoted field (which closes
the field unless it is doubled). -/
inductive CsvMode where
  | plain
  | quoted
  | closing

/-- Modelled from the spec: the ingestion parser (PapaParse, an
external collaborator not under `src/`) — "parse with header row as
column names; must tolerate empty lines", i.e. RFC 4180 CSV: fields
separated by `,`, records separated by newline, a field starting with
`"` is quoted (and may then contain commas and newlines), and an
embedded quote inside a quoted field is written as a doubled `""`.
One character is consumed per step. -/
def csvLoop (mode : CsvMode) (field : List Char) (fields : List (List Char))
    (rows : List (List (List Char))) : List Char → List (List (List Char))
  | [] => rows ++ [fields ++ [field]]
  | c :: rest =>
    match mode with
    | .quoted =>
      if c = '"' then csvLoop .closing field fields rows rest
      else csvLoop .quoted (field ++ [c]) fields rows rest
    | .closing =>
      if c = '"' then csvLoop .quoted (field ++ ['"']) fields rows rest
      else if c = ',' then csvLoop .plain [] (fields ++ [field]) rows rest
      else if c = '\n' then csvLoop .plain [] [] (rows ++ [fields ++ [field]]) rest
      else csvLoop .plain (field ++ [c]) fields rows rest
    | .plain =>
      if c = ',' then csvLoop .plain [] (fields ++ [field]) rows rest
      else if c = '\n' then csvLoop .plain [] [] (rows ++ [fields ++ [field]]) rest
      else if c = '"' && field = [] then csvLoop .quoted [] fields rows rest
      else csvLoop .plain (field ++ [c]) fields rows rest

/-- Modelled from the spec: full ingestion of a CSV text into records,
with `skipEmptyLines` behaviour (PapaParse drops every parsed record
that is a single empty field). -/
def csvParse (text : String) : List (List String) :=
  ((csvLoop .plain [] [] [] text.toList).map
    (fun fields => fields.map (fun f => String.mk f))).filter
    (fun r => r ≠ [""])

/-! ## Comparator algebra -/

/-- Swapping the arguments of `qCmp` negates it. -/
theorem qCmp_swap (x y : ℚ) : qCmp x y = -qCmp y x := by
  unfold qCmp
  rcases lt_trichotomy x y with h | h | h
  · simp [h, not_lt_of_lt h, Ne.symm (ne_of_lt h)]
  · subst h; simp
  · simp [h, not_lt_of_lt h, Ne.symm (ne_of_lt h), ne_of_lt h]

/-- The lexicographic order is transitive. -/
theorem charListLt_trans : ∀ (a b c : List Char),
    charListLt a b = true → charListLt b c = true → charListLt a c = true
  | [], [], _, hab, _ => by simp [charListLt] at hab
  | _ :: _, [], _, hab, _ => by simp [charListLt] at hab
  | [], _ :: _, [], _, hbc => by simp [charListLt] at hbc
  | _ :: _, _ :: _, [], _, hbc => by simp [charListLt] at hbc
  | [], _ :: _, _ :: _, _, _ => by simp [charListLt]
  | a :: as, b :: bs, c :: cs, hab, hbc => by
    simp only [charListLt] at hab hbc ⊢
    by_cases h1 : a < b
    · by_cases h2 : b < c
      · simp [lt_trans h1 h2]
      · by_cases h3 : c < b
        · simp [h2, h3] at hbc
        · have hbc' : b = c := le_antisymm (not_lt.mp h3) (not_lt.mp h2)
          subst hbc'; simp [h1]
    · by_cases h1' : b < a
      · simp [h1, h1'] at hab
      · have hab' : a = b := le_antisymm (not_lt.mp h1') (not_lt.mp h1)
        subst hab'
        simp only [lt_irrefl, if_false, reduceIte] at hab
        by_cases h2 : a < c
        · simp [h2]
        · by_cases h3 : c < a
          · simp [h2, h3] at hbc
          · simp only [h2, h3, if_false, reduceIte] at hbc ⊢
            exact charListLt_trans as bs cs hab hbc

/-- The lexicographic order is asymmetric. -/
theorem charListLt_asymm : ∀ (a b : List Char),
    charListLt a b = true → charListLt b a = false
  | [], [], hab => by simp [charListLt] at hab
  | _ :: _, [], hab => by simp [charListLt] at hab
  | [], _ :: _, _ => by simp [charListLt]
  | a :: as, b :: bs, hab => by
    simp only [charListLt] at hab ⊢
    by_cases h1 : a < b
    · simp [h1, not_lt_of_lt h1]
    · by_cases h1' : b < a
      · simp [h1, h1'] at hab
      · simp only [h1, h1', if_false, reduceIte] at hab ⊢
        exact charListLt_asymm as bs hab

/-- Two lists neither of which is lexicographically below the other are
equal. -/
theorem charListLt_connex : ∀ (a b : List Char),
    charListLt a b = false → charListLt b a = false → a = b
  | [], [], _, _ => rfl
  | _ :: _, [], _, hba => by simp [charListLt] at hba
  | [], _ :: _, hab, _ => by simp [charListLt] at hab
  | a :: as, b :: bs, hab, hba => by
    simp only [charListLt] at hab hba
    by_cases h1 : a < b
    · simp [h1] at hab
    · by_cases h1' : b < a
      · simp [h1', h1, not_lt_of_lt h1'] at hba
      · have hab' : a = b := le_antisymm (not_lt.mp h1') (not_lt.mp h1)
        subst hab'
        simp only [lt_irrefl, if_false, reduceIte] at hab hba
        rw [charListLt_connex as bs hab hba]

/-- Swapping the arguments of `strCmp` negates it. -/
theorem strCmp_swap (a b : String) : strCmp a b = -strCmp b a := by
  unfold strCmp
  simp only [String.toList]
  by_cases hab : charListLt a.data b.data
  · simp [hab, charListLt_asymm _ _ hab]
  · by_cases hba : charListLt b.data a.data
    · simp [hab, hba]
    · simp [hab, hba]

/-- `qCmp x y ≤ 0` states `x ≤ y`. -/
theorem qCmp_nonpos_iff (x y : ℚ) : qCmp x y ≤ 0 ↔ x ≤ y := by
  unfold qCmp
  rcases lt_trichotomy x y with h | h | h
  · simp [h, le_of_lt h]
  · subst h; simp
  · simp [not_lt_of_lt h, Ne.symm (ne_of_lt h), not_le.mpr h]

/-- `strCmp a b ≤ 0` says that `b` is not lexicographically below `a`. -/
theorem strCmp_nonpos_iff (a b : String) :
    strCmp a b ≤ 0 ↔ charListLt b.data a.data = false := by
  unfold strCmp
  simp only [String.toList]
  by_cases hab : charListLt a.data b.data
  · simp [hab, charListLt_asymm _ _ hab]
  · by_cases hba : charListLt b.data a.data
    · simp [hab, hba]
    · simp [hab, hba]

/-- `strCmp` is transitive in its nonpositive form. -/
theorem strCmp_le_trans (a b c : String) :
    strCmp a b ≤ 0 → strCmp b c ≤ 0 → strCmp a c ≤ 0 := by
  rw [strCmp_nonpos_iff, strCmp_nonpos_iff, strCmp_nonpos_iff]
  intro hba hcb
  by_cases hca : charListLt c.data a.data
  · exfalso
    by_cases hab : charListLt a.data b.data
    · have h := charListLt_trans _ _ _ hca hab
      rw [hcb] at h
      exact Bool.false_ne_true h
    · have hab' : charListLt a.data b.data = false := by
        simp only [Bool.not_eq_true] at hab; exact hab
      have h := charListLt_connex _ _ hab' hba
      rw [h] at hca
      rw [hcb] at hca
      exact Bool.false_ne_true hca
  · simp only [Bool.not_eq_true] at hca
    exact hca

/-- `qCmp x y = 0` states `x = y`. -/
theorem qCmp_eq_zero_iff (x y : ℚ) : qCmp x y = 0 ↔ x = y := by
  unfold qCmp
  rcases lt_trichotomy x y with h | h | h
  · simp [h, ne_of_lt h]
  · subst h; simp
  · simp [not_lt_of_lt h, Ne.symm (ne_of_lt h)]

/-- The boolean decimal order agrees with the rational order. -/
theorem JsNum.le_iff (a b : JsNum) : (JsNum.le a b = true) ↔ a.toRat ≤ b.toRat := by
  unfold JsNum.le JsNum.toRat
  rw [decide_eq_true_eq, div_le_div_iff₀ (by positivity) (by positivity)]
  constructor
  · intro h; exact_mod_cast h
  · intro h; exact_mod_cast h

/-- The boolean strict decimal order agrees with the rational order. -/
theorem JsNum.lt_iff (a b : JsNum) : (JsNum.lt a b = true) ↔ a.toRat < b.toRat := by
  unfold JsNum.lt JsNum.toRat
  rw [decide_eq_true_eq, div_lt_div_iff₀ (by positivity) (by positivity)]
  constructor
  · intro h; exact_mod_cast h
  · intro h; exact_mod_cast h

/-- Decimal value equality agrees with rational equality. -/
theorem JsNum.eqv_iff (a b : JsNum) : (JsNum.eqv a b = true) ↔ a.toRat = b.toRat := by
  unfold JsNum.eqv JsNum.toRat
  rw [decide_eq_true_eq, div_eq_div_iff (by positivity) (by positivity)]
  constructor
  · intro h; exact_mod_cast h
  · intro h; exact_mod_cast h

/-- The integer three-way comparison realizes `qCmp` on the values. -/
theorem numCmp_toRat (a b : JsNum) : numCmp a b = qCmp a.toRat b.toRat := by
  unfold numCmp qCmp
  by_cases h1 : a.toRat < b.toRat
  · rw [if_pos ((JsNum.lt_iff a b).mpr h1), if_pos h1]
  · rw [if_neg (fun hb => h1 ((JsNum.lt_iff a b).mp hb)), if_neg h1]
    by_cases h2 : a.toRat = b.toRat
    · rw [if_pos ((JsNum.eqv_iff a b).mpr h2), if_pos h2]
    · rw [if_neg (fun hb => h2 ((JsNum.eqv_iff a b).mp hb)), if_neg h2]

/-- Swapping the arguments of `numCmp` negates it. -/
theorem numCmp_swap (a b : JsNum) : numCmp a b = -numCmp b a := by
  rw [numCmp_toRat, numCmp_toRat, qCmp_swap]

/-- `numCmp a b ≤ 0` states that the values satisfy `a ≤ b`. -/
theorem numCmp_nonpos_iff (a b : JsNum) : numCmp a b ≤ 0 ↔ a.toRat ≤ b.toRat := by
  rw [numCmp_toRat, qCmp_nonpos_iff]

/-- Swapping the arguments of `cmpVals` negates it (the branch test is
symmetric in the two values). -/
theorem cmpVals_swap (a b : String) : cmpVals a b = -cmpVals b a := by
  unfold cmpVals
  cases ha : jsNumber a <;> cases hb : jsNumber b
  · exact strCmp_swap a b
  · exact strCmp_swap a b
  · exact strCmp_swap a b
  · exact numCmp_swap _ _

/-- Swapping the rows negates the row comparator. -/
theorem rowCmp_swap (orderBy : String) (a b : Row) :
    rowCmp orderBy a b = -rowCmp orderBy b a := by
  unfold rowCmp; exact cmpVals_swap _ _

/-- The boolean sort order is total: one of the two directions always
holds, because the comparator is antisymmetric under argument swap. -/
theorem sortLe_total (orderBy order : String) (a b : Row) :
    (sortLe orderBy order a b || sortLe orderBy order b a) = true := by
  unfold sortLe
  have h := rowCmp_swap orderBy a b
  split <;> simp only [Bool.or_eq_true, decide_eq_true_eq] <;> omega

/-- Homogeneity of a sort column over a list of rows: either every
row's value in the column coerces fully to a number, or none does.  On
such a list the comparator always takes the same branch, hence is
transitive; on mixed lists it need not be (see the counterexamples). -/
def homCol (l : List Row) (orderBy : String) : Prop :=
  (∀ r ∈ l, (jsNumber (Row.getD r orderBy)).isSome = true) ∨
  (∀ r ∈ l, (jsNumber (Row.getD r orderBy)).isSome = false)

instance (l : List Row) (orderBy : String) : Decidable (homCol l orderBy) := by
  unfold homCol; infer_instance

/-- On three rows taken from a homogeneous list, the boolean sort order
is transitive (for either sort direction). -/
theorem rowCmp_trans_of_homCol {l : List Row} {orderBy : String}
    (hhom : homCol l orderBy) :
    ∀ a ∈ l, ∀ b ∈ l, ∀ c ∈ l,
      rowCmp orderBy a b ≤ 0 → rowCmp orderBy b c ≤ 0 → rowCmp orderBy a c ≤ 0 := by
  intro a ha b hb c hc hab hbc
  unfold rowCmp cmpVals at hab hbc ⊢
  rcases hhom with hn | hn
  · obtain ⟨x, hx⟩ := Option.isSome_iff_exists.mp (hn a ha)
    obtain ⟨y, hy⟩ := Option.isSome_iff_exists.mp (hn b hb)
    obtain ⟨z, hz⟩ := Option.isSome_iff_exists.mp (hn c hc)
    simp only [hx, hy, hz, numCmp_nonpos_iff] at hab hbc ⊢
    exact le_trans hab hbc
  · have hx : jsNumber (Row.getD a orderBy) = none :=
      Option.not_isSome_iff_eq_none.mp (by simp [hn a ha])
    have hy : jsNumber (Row.getD b orderBy) = none :=
      Option.not_isSome_iff_eq_none.mp (by simp [hn b hb])
    have hz : jsNumber (Row.getD c orderBy) = none :=
      Option.not_isSome_iff_eq_none.mp (by simp [hn c hc])
    simp only [hx, hy, hz] at hab hbc ⊢
    exact strCmp_le_trans _ _ _ hab hbc

/-- On three rows taken from a homogeneous list, the boolean sort order
is transitive (for either sort direction). -/
theorem sortLe_trans_of_homCol {l : List Row} {orderBy : String}
    (hhom : homCol l orderBy) (order : String) :
    ∀ a ∈ l, ∀ b ∈ l, ∀ c ∈ l,
      sortLe orderBy order a b = true → sortLe orderBy order b c = true →
      sortLe orderBy order a c = true := by
  intro a ha b hb c hc hab hbc
  unfold sortLe at hab hbc ⊢
  by_cases h : order = "asc"
  · simp only [h, reduceIte, decide_eq_true_eq] at hab hbc ⊢
    exact rowCmp_trans_of_homCol hhom a ha b hb c hc hab hbc
  · simp only [h, reduceIte, decide_eq_true_eq] at hab hbc ⊢
    exact rowCmp_trans_of_homCol hhom c hc b hb a ha hbc hab

/-! ## Stable-sort lemmas with hypotheses local to the list

Lean's `List.mergeSort` lemmas about sortedness and stability assume
the order is transitive and total on the whole type.  The view's
comparator is not globally transitive (mixed numeric / non-numeric
values break it), so we transfer the lemmas along `List.attach` to get
versions whose hypotheses only quantify over members of the sorted
list. -/

/-- Sorting a list is sorting its attached copy and projecting. -/
theorem mergeSort_attach {α : Type} (le : α → α → Bool) (l : List α) :
    l.mergeSort le = (l.attach.mergeSort (fun a b => le a.1 b.1)).map Subtype.val := by
  rw [List.map_mergeSort (s := le) (fun a _ b _ => rfl), List.attach_map_subtype_val]

/-- `sorted_mergeSort` with transitivity and totality assumed only on
members of the list. -/
theorem sorted_mergeSort_local {α : Type} (le : α → α → Bool) (l : List α)
    (htrans : ∀ a ∈ l, ∀ b ∈ l, ∀ c ∈ l, le a b = true → le b c = true → le a c = true)
    (htotal : ∀ a ∈ l, ∀ b ∈ l, (le a b || le b a) = true) :
    (l.mergeSort le).Pairwise (fun a b => le a b = true) := by
  rw [mergeSort_attach]
  refine List.Pairwise.map _ (fun a b h => h) ?_
  exact List.sorted_mergeSort
    (fun a b c => htrans a.1 a.2 b.1 b.2 c.1 c.2)
    (fun a b => htotal a.1 a.2 b.1 b.2) _

/-- Two fixed positions of a list form a sublist. -/
theorem pair_get_sublist {α : Type} :
    ∀ (l : List α) (i j : Nat) (hi : i < l.length) (hj : j < l.length), i < j →
      [l.get ⟨i, hi⟩, l.get ⟨j, hj⟩] <+ l
  | x :: xs, 0, j + 1, _, hj, _ => by
    simp only [List.get_eq_getElem, List.getElem_cons_zero, List.getElem_cons_succ]
    exact List.Sublist.cons₂ x (List.singleton_sublist.mpr (xs.get_mem _ _))
  | x :: xs, i + 1, j + 1, hi, hj, hij => by
    simpa using List.Sublist.cons x
      (pair_get_sublist xs i j (Nat.lt_of_succ_lt_succ hi) (Nat.lt_of_succ_lt_succ hj)
        (Nat.lt_of_succ_lt_succ hij))

/-- Stability of `mergeSort` with local hypotheses: two positions
`i < j` whose elements are related by `le` stay in that relative order
in the sorted output. -/
theorem pair_sublist_mergeSort_local {α : Type} (le : α → α → Bool) (l : List α)
    (htrans : ∀ a ∈ l, ∀ b ∈ l, ∀ c ∈ l, le a b = true → le b c = true → le a c = true)
    (htotal : ∀ a ∈ l, ∀ b ∈ l, (le a b || le b a) = true)
    (i j : Nat) (hi : i < l.length) (hj : j < l.length) (hij : i < j)
    (hab : le (l.get ⟨i, hi⟩) (l.get ⟨j, hj⟩) = true) :
    [l.get ⟨i, hi⟩, l.get ⟨j, hj⟩] <+ l.mergeSort le := by
  rw [mergeSort_attach]
  have hi' : i < l.attach.length := by simpa using hi
  have hj' : j < l.attach.length := by simpa using hj
  have hsub : [l.attach.get ⟨i, hi'⟩, l.attach.get ⟨j, hj'⟩] <+
      l.attach.mergeSort (fun a b => le a.1 b.1) := by
    refine List.sublist_mergeSort
      (fun a b c => htrans a.1 a.2 b.1 b.2 c.1 c.2)
      (fun a b => htotal a.1 a.2 b.1 b.2) ?_ ?_
    · refine List.pairwise_pair.mpr ?_
      have h1 : (l.attach.get ⟨i, hi'⟩).1 = l.get ⟨i, hi⟩ := by
        simp [List.get_eq_getElem, List.getElem_attach]
      have h2 : (l.attach.get ⟨j, hj'⟩).1 = l.get ⟨j, hj⟩ := by
        simp [List.get_eq_getElem, List.getElem_attach]
      rw [h1, h2]; exact hab
    · exact pair_get_sublist _ i j hi' hj' hij
  have := hsub.map Subtype.val
  simpa [List.get_eq_getElem, List.getElem_attach] using this

/-- A pairwise-ordered permutation is unique when the order is
antisymmetric on the list's members. -/
theorem eq_of_perm_of_pairwise {α : Type} (R : α → α → Prop) (l₁ : List α) :
    ∀ (l₂ : List α), l₁ ~ l₂ → l₁.Pairwise R → l₂.Pairwise R →
      (∀ a ∈ l₁, ∀ b ∈ l₁, R a b → R b a → a = b) → l₁ = l₂ := by
  induction l₁ with
  | nil =>
    intro l₂ hp _ _ _
    exact (List.Perm.eq_nil hp.symm).symm
  | cons a t₁ ih =>
    intro l₂ hp hp₁ hp₂ hanti
    cases l₂ with
    | nil => simpa using hp.eq_nil
    | cons b t₂ =>
      by_cases hab : a = b
      · subst hab
        have ht : t₁ ~ t₂ := hp.cons_inv
        have : t₁ = t₂ := ih t₂ ht hp₁.of_cons hp₂.of_cons
          (fun x hx y hy => hanti x (List.mem_cons_of_mem _ hx) y (List.mem_cons_of_mem _ hy))
        rw [this]
      · exfalso
        have ha : a ∈ b :: t₂ := hp.mem_iff.mp (List.mem_cons_self a t₁)
        have hat₂ : a ∈ t₂ := by
          rcases List.mem_cons.mp ha with h | h
          · exact absurd h hab
          · exact h
        have hbt₁ : b ∈ t₁ := by
          have hb : b ∈ a :: t₁ := hp.symm.mem_iff.mp (List.mem_cons_self b t₂)
          rcases List.mem_cons.mp hb with h | h
          · exact absurd h.symm hab
          · exact h
        have hRab : R a b := List.rel_of_pairwise_cons hp₁ hbt₁
        have hRba : R b a := List.rel_of_pairwise_cons hp₂ hat₂
        exact hab (hanti a (List.mem_cons_self a t₁) b (List.mem_cons_of_mem _ hbt₁) hRab hRba)

/-- A tie makes the boolean sort order hold in both directions,
whatever the direction string. -/
theorem sortLe_of_tie {orderBy : String} {a b : Row}
    (h : rowCmp orderBy a b = 0) (order : String) :
    sortLe orderBy order a b = true := by
  unfold sortLe
  have h' : rowCmp orderBy b a = 0 := by
    have := rowCmp_swap orderBy a b; omega
  split <;> simp [h, h']

/-! ## C4: sort stability -/

/-- C4 (amended): on a homogeneous sort column (all values numeric, or
none numeric — without this the comparator is not transitive and the
claim fails, see `sort_stability_cex`), two rows of the filtered
sequence whose sort-column values compare equal keep their relative
input order in the sorted output. -/
theorem sort_stability (filtered : List Row) (orderBy order : String)
    (i j : Nat) (hi : i < filtered.length) (hj : j < filtered.length) (hij : i < j)
    (hhom : homCol filtered orderBy)
    (htie : rowCmp orderBy (filtered.get ⟨i, hi⟩) (filtered.get ⟨j, hj⟩) = 0) :
    [filtered.get ⟨i, hi⟩, filtered.get ⟨j, hj⟩] <+ sortedData filtered orderBy order := by
  unfold sortedData
  by_cases horder : orderBy = ""
  · rw [if_pos horder]
    exact pair_get_sublist filtered i j hi hj hij
  · rw [if_neg horder]
    exact pair_sublist_mergeSort_local _ filtered
      (sortLe_trans_of_homCol hhom order)
      (fun a _ b _ => sortLe_total orderBy order a b)
      i j hi hj hij (sortLe_of_tie htie order)

/-- Counterexample rows for C4/C5: sort-column values `"1!"` (not
numeric), `"1.0"` and `"1"` (numerically equal, different strings). -/
def tieRowX : Row := [("v", "1!")]

/-- Second counterexample row, sort value `"1.0"`. -/
def tieRowA : Row := [("v", "1.0")]

/-- Third counterexample row, sort value `"1"`. -/
def tieRowB : Row := [("v", "1")]

/-- C4 as stated is false on mixed columns: in
`[tieRowX, tieRowA, tieRowB]` the rows `tieRowA` and `tieRowB` tie
under the comparator (`1.0 = 1` numerically) and appear in this order,
but the sorted output is `[tieRowB, tieRowX, tieRowA]` — the tied pair
comes out reversed, because `"1!"` compares as a string against both
and sits between them in string order while being above both
numerically. -/
theorem sort_stability_cex :
    rowCmp "v" tieRowA tieRowB = 0 ∧
    sortedData [tieRowX, tieRowA, tieRowB] "v" "asc" = [tieRowB, tieRowX, tieRowA] ∧
    ¬ ([tieRowA, tieRowB] <+ sortedData [tieRowX, tieRowA, tieRowB] "v" "asc") := by
  have hs : sortedData [tieRowX, tieRowA, tieRowB] "v" "asc" =
      [tieRowB, tieRowX, tieRowA] := by
    simp +decide [sortedData, List.mergeSort, List.merge, List.splitInTwo, List.splitAt_eq]
  refine ⟨by decide, hs, ?_⟩
  rw [hs]
  intro h
  have hb : ([tieRowA, tieRowB].isSublist [tieRowB, tieRowX, tieRowA]) = true :=
    List.isSublist_iff_sublist.mpr h
  exact absurd hb (by decide)

/-- Witness for the amended C4 at a concrete input: two rows with the
numerically equal funding values `"2"` and `"2.0"` keep their order. -/
theorem sort_stability_witness :
    [([("v", "2")] : Row), [("v", "2.0")]] <+
      sortedData [[("v", "2")], [("v", "2.0")]] "v" "asc" := by
  have h := sort_stability [[("v", "2")], [("v", "2.0")]] "v" "asc" 0 1
    (by decide) (by decide) (by decide) (Or.inl (by decide)) (by decide)
  simpa using h

/-! ## C5: sort-direction inversion -/

/-- Descending order is ascending order with the rows swapped. -/
theorem sortLe_desc_swap (orderBy : String) (a b : Row) :
    sortLe orderBy "desc" a b = sortLe orderBy "asc" b a := by
  unfold sortLe
  simp

/-- C5 (amended): on a homogeneous sort column (again indispensable:
`sort_direction_inversion_cex` breaks the law on a mixed column even
without ties), if no two rows' sort-column values compare equal then
sorting descending is the reverse of sorting ascending. -/
theorem sort_direction_inversion (filtered : List Row) (orderBy : String)
    (hob : orderBy ≠ "")
    (hhom : homCol filtered orderBy)
    (hties : filtered.Pairwise (fun a b => rowCmp orderBy a b ≠ 0)) :
    sortedData filtered orderBy "desc" = (sortedData filtered orderBy "asc").reverse := by
  unfold sortedData
  rw [if_neg hob, if_neg hob]
  have pB : filtered.mergeSort (fun a b => sortLe orderBy "desc" a b) ~ filtered :=
    List.mergeSort_perm _ _
  have pA : (filtered.mergeSort (fun a b => sortLe orderBy "asc" a b)).reverse ~ filtered :=
    (List.reverse_perm _).trans (List.mergeSort_perm _ _)
  have sB : (filtered.mergeSort (fun a b => sortLe orderBy "desc" a b)).Pairwise
      (fun a b => sortLe orderBy "desc" a b = true) :=
    sorted_mergeSort_local _ _ (sortLe_trans_of_homCol hhom "desc")
      (fun a _ b _ => sortLe_total orderBy "desc" a b)
  have sA : (filtered.mergeSort (fun a b => sortLe orderBy "asc" a b)).reverse.Pairwise
      (fun a b => sortLe orderBy "desc" a b = true) := by
    rw [List.pairwise_reverse]
    refine List.Pairwise.imp ?_
      (sorted_mergeSort_local _ _ (sortLe_trans_of_homCol hhom "asc")
        (fun a _ b _ => sortLe_total orderBy "asc" a b))
    intro a b h
    rw [sortLe_desc_swap]
    exact h
  have hne : ∀ a ∈ filtered, ∀ b ∈ filtered, a ≠ b → rowCmp orderBy a b ≠ 0 := by
    have hsymm : Symmetric (fun a b : Row => rowCmp orderBy a b ≠ 0) := by
      intro a b h
      have := rowCmp_swap orderBy a b
      omega
    exact fun a ha b hb hab => hties.forall hsymm ha hb hab
  refine eq_of_perm_of_pairwise _ _ _ (pB.trans pA.symm) sB sA ?_
  intro a ha b hb h1 h2
  have ha' : a ∈ filtered := (List.mem_mergeSort).mp ha
  have hb' : b ∈ filtered := (List.mem_mergeSort).mp hb
  by_contra hab
  rw [sortLe_desc_swap] at h1 h2
  unfold sortLe at h1 h2
  simp at h1 h2
  have hsw := rowCmp_swap orderBy a b
  exact hne a ha' b hb' hab (by omega)

/-- C5 as stated is false on mixed columns: values `"10"`, `"5x"`,
`"9"` have no ties, yet descending sort is not the reverse of ascending
sort, because the comparator is not transitive across the
numeric/string branch boundary. -/
theorem sort_direction_inversion_cex :
    ([[("v", "10")], [("v", "5x")], [("v", "9")]] : List Row).Pairwise
      (fun a b => rowCmp "v" a b ≠ 0) ∧
    sortedData [[("v", "10")], [("v", "5x")], [("v", "9")]] "v" "desc" ≠
      (sortedData [[("v", "10")], [("v", "5x")], [("v", "9")]] "v" "asc").reverse := by
  have hd : sortedData [[("v", "10")], [("v", "5x")], [("v", "9")]] "v" "desc" =
      [[("v", "9")], [("v", "5x")], [("v", "10")]] := by
    simp +decide [sortedData, List.mergeSort, List.merge, List.splitInTwo, List.splitAt_eq]
  have ha : sortedData [[("v", "10")], [("v", "5x")], [("v", "9")]] "v" "asc" =
      [[("v", "9")], [("v", "10")], [("v", "5x")]] := by
    simp +decide [sortedData, List.mergeSort, List.merge, List.splitInTwo, List.splitAt_eq]
  refine ⟨by decide, ?_⟩
  rw [hd, ha]
  decide

/-- Witness for the amended C5 at a concrete input: an all-numeric
column with distinct values. -/
theorem sort_direction_inversion_witness :
    sortedData [[("v", "3")], [("v", "1")], [("v", "2")]] "v" "desc" =
      (sortedData [[("v", "3")], [("v", "1")], [("v", "2")]] "v" "asc").reverse :=
  sort_direction_inversion _ "v" (by decide) (Or.inl (by decide)) (by decide)

/-! ## C1: identity fast path -/

/-- C1: with an empty trimmed search term, no active filters and no
sort column, the derived view is the dataset itself, in order. -/
theorem identity_fast_path (st : AppState) (hs : jsTrim st.search = "")
    (hf : st.activeFilters = []) (ho : st.orderBy = "") :
    deriveView st = st.data := by
  unfold deriveView filteredData sortedData
  rw [hs, hf, ho]
  simp

/-- Witness for C1. -/
theorem identity_fast_path_witness :
    deriveView ⟨[[("name", "x")], [("name", "y")]], "", [], "", "asc",
      ["name"], ["name"], (fun _ => none), 1000⟩ = [[("name", "x")], [("name", "y")]] :=
  identity_fast_path _ rfl rfl rfl

/-! ## C2: the currency-normalized Range scenario -/

/-- The three-row dataset of the claim, under the column name `amount`
the claim uses. -/
def amountData : List Row :=
  [[("amount", "$1,200")], [("amount", "$300")], [("amount", "abc")]]

/-- C2's filter on the column `amount`, with resolved type Number. -/
def amountFilter : Filter :=
  ⟨"amount", "range", "500", "2000", "number"⟩

/-- C2 as stated is false: the currency normalization (stripping every
character other than digits, `.` and `-`) is applied only to the column
`funding_total` — the only entry of the per-column override table — so
on a column named `amount` the Range filter parses `"$1,200"` with a
plain `Number` coercion, gets `NaN`, and keeps no row at all instead of
exactly the first. -/
theorem range_filter_amount_cex :
    filteredData amountData "" [amountFilter] = [] ∧
    filteredData amountData "" [amountFilter] ≠ [[("amount", "$1,200")]] := by
  constructor
  · decide
  · decide

/-- The same three-row dataset under the column `funding_total`. -/
def fundingData : List Row :=
  [[("funding_total", "$1,200")], [("funding_total", "$300")], [("funding_total", "abc")]]

/-- C2 (amended): the scenario holds for the column the override table
actually contains, `funding_total`: its resolved type is Number via the
override, values are stripped of every character that is not a digit,
`.` or `-` before parsing, an empty stripped result coerces to `0`
(via the `"0"` fallback and `Number("") = 0`), and the Range filter
`[500, 2000]` keeps exactly the first row. -/
theorem range_filter_funding_total :
    guessColumnType "funding_total" fundingData = "number" ∧
    filteredData fundingData ""
      [⟨"funding_total", "range", "500", "2000",
        guessColumnType "funding_total" fundingData⟩] =
      [[("funding_total", "$1,200")]] := by
  constructor
  · rfl
  · decide

/-! ## C3: global search over the fixed searchable columns -/

/-- A string whose character list is empty is the empty string. -/
theorem string_toList_eq_nil {s : String} (h : s.toList = []) : s = "" := by
  cases s with
  | mk d =>
    cases d with
    | nil => rfl
    | cons c cs => simp [String.toList] at h

/-- Lowercasing does not produce the empty string from a non-empty one. -/
theorem jsToLower_ne_empty {s : String} (h : s ≠ "") : jsToLower s ≠ "" := by
  intro hc
  apply h
  cases s with
  | mk d =>
    cases d with
    | nil => rfl
    | cons c cs =>
      exfalso
      unfold jsToLower at hc
      have hd := congrArg String.data hc
      simp [String.toList] at hd

/-- The empty haystack contains no non-empty needle. -/
theorem jsIncludes_empty_left {pat : String} (hp : pat ≠ "") :
    jsIncludes "" pat = false := by
  show containsSub pat.toList [] = false
  unfold containsSub isPrefixB
  cases hpl : pat.toList with
  | nil => exact absurd (string_toList_eq_nil hpl) hp
  | cons c cs => simp

/-- Lowercasing the empty string gives the empty string. -/
theorem jsToLower_empty : jsToLower "" = "" := rfl

/-- `matchesSearch` against a non-empty lowercased term is the
case-insensitive substring test on the `name` and `website` columns
(with a missing column reading as the empty string). -/
theorem matchesSearch_iff (lower : String) (r : Row) (hl : lower ≠ "") :
    matchesSearch lower r = true ↔
      (jsIncludes (jsToLower (Row.getD r "name")) lower = true ∨
       jsIncludes (jsToLower (Row.getD r "website")) lower = true) := by
  have hcol : ∀ c : String,
      (match Row.get r c with
       | some s => s ≠ "" && jsIncludes (jsToLower s) lower
       | none => false) = jsIncludes (jsToLower (Row.getD r c)) lower := by
    intro c
    unfold Row.getD
    cases hv : Row.get r c with
    | none =>
      simp [jsToLower_empty, jsIncludes_empty_left hl]
    | some s =>
      by_cases hs : s = ""
      · subst hs
        simp [jsToLower_empty, jsIncludes_empty_left hl]
      · simp [hs]
  unfold matchesSearch
  rw [hcol "name", hcol "website"]
  simp

/-- With a non-empty term and no filters the pipeline is exactly the
search filter. -/
theorem filteredData_search_only (data : List Row) (term : String) (ht : term ≠ "") :
    filteredData data term [] = data.filter (matchesSearch (jsToLower term)) := by
  unfold filteredData
  simp [ht]

/-- With an empty term and a non-empty filter list the pipeline is
exactly the chain of filter passes. -/
theorem filteredData_filters_only (data : List Row) (f : Filter) (fs : List Filter) :
    filteredData data "" (f :: fs) =
      (f :: fs).foldl (fun acc g => acc.filter (fun row => matchesFilter g row)) data := by
  unfold filteredData
  simp

/-- C3: with a non-empty search term and no active filters, a row is
kept by the pipeline iff it is a dataset row whose `name` or `website`
value contains the lowercased term as a case-insensitive substring —
the searchable columns are exactly `name` and `website`, independent of
any column-layout state. -/
theorem search_fixed_columns (data : List Row) (term : String) (r : Row)
    (hterm : term ≠ "") :
    r ∈ filteredData data term [] ↔
      r ∈ data ∧
        (jsIncludes (jsToLower (Row.getD r "name")) (jsToLower term) = true ∨
         jsIncludes (jsToLower (Row.getD r "website")) (jsToLower term) = true) := by
  have hlower : jsToLower term ≠ "" := jsToLower_ne_empty hterm
  rw [filteredData_search_only data term hterm, List.mem_filter]
  constructor
  · rintro ⟨hmem, hmatch⟩
    exact ⟨hmem, (matchesSearch_iff _ _ hlower).mp hmatch⟩
  · rintro ⟨hmem, hmatch⟩
    exact ⟨hmem, (matchesSearch_iff _ _ hlower).mpr hmatch⟩

/-- Witness for C3: the claim's scenario — term `"acme"`, a row named
`"Acme Corp"` and a row named `"Other"` with website `"acme.io"` are
both kept. -/
theorem search_fixed_columns_witness :
    ([("name", "Acme Corp")] : Row) ∈
        filteredData [[("name", "Acme Corp")], [("name", "Other"), ("website", "acme.io")]]
          "acme" [] ∧
    ([("name", "Other"), ("website", "acme.io")] : Row) ∈
        filteredData [[("name", "Acme Corp")], [("name", "Other"), ("website", "acme.io")]]
          "acme" [] :=
  ⟨(search_fixed_columns _ "acme" _ (by decide)).mpr ⟨by decide, Or.inl (by decide)⟩,
   (search_fixed_columns _ "acme" _ (by decide)).mpr ⟨by decide, Or.inr (by decide)⟩⟩

/-! ## C7: column layout never affects the derived rows -/

/-- C7: the derived row sequence is a function of the dataset, the
settled search text, the active filters and the sort spec alone — two
states that agree on those, whatever their visible-column set, column
order, custom widths or window width, derive the same rows. -/
theorem layout_noninterference (s1 s2 : AppState)
    (hd : s1.data = s2.data) (hs : s1.search = s2.search)
    (hf : s1.activeFilters = s2.activeFilters) (ho : s1.orderBy = s2.orderBy)
    (hr : s1.order = s2.order) :
    deriveView s1 = deriveView s2 := by
  unfold deriveView
  rw [hd, hs, hf, ho, hr]

/-- Witness for C7: two states with different visible columns, column
order, custom widths and window width derive the same view. -/
theorem layout_noninterference_witness :
    deriveView ⟨[[("name", "a")], [("name", "b")]], "a", [], "name", "asc",
      ["name"], ["name"], (fun _ => none), 800⟩ =
    deriveView ⟨[[("name", "a")], [("name", "b")]], "a", [], "name", "asc",
      [], ["x", "name"], (fun _ => some 240), 1200⟩ :=
  layout_noninterference _ _ rfl rfl rfl rfl rfl

/-! ## C10: Range filter on funding_total with an absent upper bound -/

/-- C10: a Range filter on `funding_total` (resolved type Number) whose
`value2` is the empty string uses `0` as the upper bound: a row matches
iff its normalized numeric value `x` satisfies `value ≤ x ≤ 0`; with a
positive lower bound the filter keeps no row at all. -/
theorem funding_range_empty_value2 (rows : List Row) (v1 : String) (q : JsNum)
    (hv : jsNumber v1 = some q) :
    (∀ r : Row,
      matchesFilter ⟨"funding_total", "range", v1, "", "number"⟩ r = true ↔
        ∃ x : JsNum, jsNumber (fundingCleanVal (Row.get r "funding_total")) = some x ∧
          q.toRat ≤ x.toRat ∧ x.toRat ≤ 0) ∧
    (0 < q.toRat →
      filteredData rows "" [⟨"funding_total", "range", v1, "", "number"⟩] = []) := by
  have hchar : ∀ r : Row,
      matchesFilter ⟨"funding_total", "range", v1, "", "number"⟩ r = true ↔
        ∃ x : JsNum, jsNumber (fundingCleanVal (Row.get r "funding_total")) = some x ∧
          q.toRat ≤ x.toRat ∧ x.toRat ≤ 0 := by
    intro r
    unfold matchesFilter
    simp only [hv]
    cases hnum : jsNumber (fundingCleanVal (Row.get r "funding_total")) with
    | none => simp [jsGe]
    | some x => simp [jsGe, jsLe, JsNum.le_iff, JsNum.toRat]
  refine ⟨hchar, fun hq => ?_⟩
  rw [filteredData_filters_only]
  simp only [List.foldl_cons, List.foldl_nil]
  rw [List.filter_eq_nil_iff]
  intro r _
  intro hmatch
  obtain ⟨x, _, h1, h2⟩ := (hchar r).mp hmatch
  linarith

/-- Witness for C10: lower bound `"500"`, empty `value2` — no row of
the funding dataset survives. -/
theorem funding_range_empty_value2_witness :
    jsNumber "500" = some ⟨500, 0⟩ ∧
    filteredData fundingData "" [⟨"funding_total", "range", "500", "", "number"⟩] = [] :=
  ⟨by decide,
   (funding_range_empty_value2 fundingData "500" ⟨500, 0⟩ (by decide)).2
     (by norm_num [JsNum.toRat])⟩

/-! ## C8: layout invariant under toggle / reorder -/

/-- Inserting at a position within bounds is a permutation of pushing
in front. -/
theorem insertIdx_perm_cons (a : α) : ∀ (n : Nat) (l : List α), n ≤ l.length →
    List.insertIdx n a l ~ a :: l
  | 0, l, _ => by rw [List.insertIdx_zero]
  | n + 1, [], h => by simp at h
  | n + 1, x :: xs, h => by
    rw [List.insertIdx_succ_cons]
    exact ((insertIdx_perm_cons a n xs (Nat.le_of_succ_le_succ h)).cons x).trans
      (List.Perm.swap a x xs)

/-- A list is a permutation of its `i`-th element pushed onto the rest. -/
theorem get_cons_eraseIdx_perm : ∀ (l : List α) (i : Nat) (h : i < l.length),
    l.get ⟨i, h⟩ :: l.eraseIdx i ~ l
  | x :: xs, 0, _ => List.Perm.refl _
  | x :: xs, i + 1, h => by
    simp only [List.get_eq_getElem, List.getElem_cons_succ, List.eraseIdx_cons_succ]
    exact (List.Perm.swap x (xs.get ⟨i, by simpa using h⟩) (xs.eraseIdx i)).trans
      ((get_cons_eraseIdx_perm xs i (by simpa using h)).cons x)

/-- A drag reorder permutes the column order. -/
theorem onDragEnd_perm (order : List String) (s d : Nat) :
    onDragEnd order s d ~ order := by
  unfold onDragEnd
  split
  · next h =>
    exact (insertIdx_perm_cons _ _ _ (min_le_right _ _)).trans
      (get_cons_eraseIdx_perm order s h)
  · exact List.Perm.refl _

/-- C8: after any finite sequence of toggle and reorder operations from
the initial layout, the full column order is a permutation of the
dataset header (no column duplicated or lost), and the displayed
columns are a subsequence of that order consisting exactly of the
columns that are both in the order and visible. -/
theorem layout_invariant (headers : List String) (ops : List LayoutOp) :
    (ops.foldl applyOp (initLayout headers)).columnOrder ~ headers ∧
    displayedColumns (ops.foldl applyOp (initLayout headers)) <+
      (ops.foldl applyOp (initLayout headers)).columnOrder ∧
    ∀ c, c ∈ displayedColumns (ops.foldl applyOp (initLayout headers)) ↔
      (c ∈ (ops.foldl applyOp (initLayout headers)).columnOrder ∧
       c ∈ (ops.foldl applyOp (initLayout headers)).visibleColumns) := by
  refine ⟨?_, List.filter_sublist _, ?_⟩
  · have aux : ∀ (ops : List LayoutOp) (st : LayoutState),
        (ops.foldl applyOp st).columnOrder ~ st.columnOrder := by
      intro ops
      induction ops with
      | nil => intro st; exact List.Perm.refl _
      | cons op ops ih =>
        intro st
        refine (ih (applyOp st op)).trans ?_
        cases op with
        | toggle col => exact List.Perm.refl _
        | reorder s d => exact onDragEnd_perm _ _ _
    exact aux ops (initLayout headers)
  · intro c
    unfold displayedColumns
    rw [List.mem_filter]
    simp [List.contains, List.elem_iff]

/-! ## C9: width assignment -/

/-- `getColumnWidths` in closed form: when the default-width total
falls short of the container and some column has no custom width, the
non-custom columns all get the evenly distributed remainder, else every
column keeps its custom-or-default width. -/
theorem getColumnWidths_eq (columns : List String) (containerWidth : Int)
    (customWidths : String → Option Int) :
    getColumnWidths columns containerWidth customWidths =
      if (columns.map (fun col => widthOr (customWidths col) DEFAULT_COL_WIDTH)).sum < containerWidth
          ∧ 0 < columns.length
          ∧ columns.filter (fun col => !truthyWidth (customWidths col)) ≠ [] then
        (fun col =>
          if (columns.filter (fun col => !truthyWidth (customWidths col))).contains col then
            Int.fdiv (containerWidth - (columns.map (fun col => widthOr (customWidths col) 0)).sum)
              ((columns.filter (fun col => !truthyWidth (customWidths col))).length : Int)
          else widthOr (customWidths col) DEFAULT_COL_WIDTH)
      else fun col => widthOr (customWidths col) DEFAULT_COL_WIDTH := by
  simp only [getColumnWidths]
  by_cases h1 : (columns.map (fun col => widthOr (customWidths col) DEFAULT_COL_WIDTH)).sum <
      containerWidth ∧ 0 < columns.length
  · rw [if_pos h1]
    by_cases h2 : columns.filter (fun col => !truthyWidth (customWidths col)) ≠ []
    · rw [if_pos h2, if_pos ⟨h1.1, h1.2, h2⟩]
    · rw [if_neg h2, if_neg (by tauto)]
  · rw [if_neg h1, if_neg (by tauto)]

/-- Summing the stretched widths over the columns. -/
theorem sum_map_stretched (columns : List String) (custom : String → Option Int) (extra : Int) :
    (columns.map (fun col => if !truthyWidth (custom col) then extra
        else widthOr (custom col) DEFAULT_COL_WIDTH)).sum =
      (columns.map (fun col => widthOr (custom col) 0)).sum +
      ((columns.filter (fun col => !truthyWidth (custom col))).length : Int) * extra := by
  induction columns with
  | nil => simp
  | cons c cs ih =>
    simp only [List.map_cons, List.sum_cons, List.filter_cons]
    by_cases h : truthyWidth (custom c)
    · have hv : widthOr (custom c) DEFAULT_COL_WIDTH = widthOr (custom c) 0 := by
        cases hc : custom c with
        | none => rw [hc] at h; simp [truthyWidth] at h
        | some w =>
          have hw : ¬w = 0 := by rw [hc] at h; simpa [truthyWidth] using h
          simp [widthOr, hw]
      simp only [h, Bool.not_true, Bool.false_eq_true, if_false, reduceIte]
      rw [ih, hv]
      ring
    · have hb : truthyWidth (custom c) = false := by
        simp only [Bool.not_eq_true] at h; exact h
      have h0 : widthOr (custom c) 0 = 0 := by
        cases hc : custom c with
        | none => simp [widthOr]
        | some w =>
          have : w = 0 := by rw [hc] at hb; simpa [truthyWidth] using hb
          simp [widthOr, hc, this]
      simp only [hb, Bool.not_false, if_true, reduceIte, List.length_cons]
      rw [ih, h0]
      push_cast
      ring

/-- C9: a column with a (non-zero) custom width always receives exactly
that width; and when the assigned total falls short of the container
while some column has no custom width, all non-custom columns receive
one common width and the resulting total fills the container up to
integer rounding (it exceeds `containerWidth - k` where `k` counts the
non-custom columns, and never exceeds `containerWidth`). -/
theorem getColumnWidths_spec (columns : List String) (containerWidth : Int)
    (customWidths : String → Option Int) :
    (∀ col ∈ columns, ∀ w : Int, customWidths col = some w → w ≠ 0 →
      getColumnWidths columns containerWidth customWidths col = w) ∧
    ((columns.map (fun col => widthOr (customWidths col) DEFAULT_COL_WIDTH)).sum < containerWidth →
      columns.filter (fun col => !truthyWidth (customWidths col)) ≠ [] →
      ((∀ c1 ∈ columns.filter (fun col => !truthyWidth (customWidths col)),
          ∀ c2 ∈ columns.filter (fun col => !truthyWidth (customWidths col)),
          getColumnWidths columns containerWidth customWidths c1 =
            getColumnWidths columns containerWidth customWidths c2) ∧
        containerWidth -
            ((columns.filter (fun col => !truthyWidth (customWidths col))).length : Int) <
          (columns.map (getColumnWidths columns containerWidth customWidths)).sum ∧
        (columns.map (getColumnWidths columns containerWidth customWidths)).sum ≤
          containerWidth)) := by
  constructor
  · intro col hcol w hw hw0
    have htr : truthyWidth (customWidths col) = true := by simp [truthyWidth, hw, hw0]
    have hcontains :
        (columns.filter (fun c => !truthyWidth (customWidths c))).contains col = false := by
      simp only [List.contains, Bool.eq_false_iff]
      intro helem
      have := List.mem_filter.mp (List.elem_iff.mp helem)
      rw [htr] at this
      simpa using this.2
    rw [getColumnWidths_eq]
    split
    · simp only [hcontains, Bool.false_eq_true, if_false, reduceIte]
      simp [widthOr, hw, hw0]
    · simp [widthOr, hw, hw0]
  · intro hlt hne
    have hlen : 0 < columns.length := by
      rcases columns with _ | ⟨c, cs⟩
      · simp at hne
      · simp
    rw [getColumnWidths_eq, if_pos ⟨hlt, hlen, hne⟩]
    have hk : 0 < ((columns.filter (fun col => !truthyWidth (customWidths col))).length : Int) := by
      rcases hfe : columns.filter (fun col => !truthyWidth (customWidths col)) with _ | ⟨c, cs⟩
      · exact absurd hfe hne
      · simp
    refine ⟨?_, ?_⟩
    · intro c1 hc1 c2 hc2
      have h1 : (columns.filter (fun col => !truthyWidth (customWidths col))).contains c1 = true :=
        List.elem_iff.mpr hc1
      have h2 : (columns.filter (fun col => !truthyWidth (customWidths col))).contains c2 = true :=
        List.elem_iff.mpr hc2
      simp only [h1, h2, if_true, reduceIte]
    · have hmap : columns.map (fun col =>
          if (columns.filter (fun c => !truthyWidth (customWidths c))).contains col then
            Int.fdiv (containerWidth - (columns.map (fun c => widthOr (customWidths c) 0)).sum)
              ((columns.filter (fun c => !truthyWidth (customWidths c))).length : Int)
          else widthOr (customWidths col) DEFAULT_COL_WIDTH) =
          columns.map (fun col =>
            if !truthyWidth (customWidths col) then
              Int.fdiv (containerWidth - (columns.map (fun c => widthOr (customWidths c) 0)).sum)
                ((columns.filter (fun c => !truthyWidth (customWidths c))).length : Int)
            else widthOr (customWidths col) DEFAULT_COL_WIDTH) := by
        apply List.map_congr_left
        intro col hcol
        by_cases ht : truthyWidth (customWidths col)
        · have hcc : (columns.filter (fun c => !truthyWidth (customWidths c))).contains col = false := by
            simp only [List.contains, Bool.eq_false_iff]
            intro helem
            have := List.mem_filter.mp (List.elem_iff.mp helem)
            rw [ht] at this
            simpa using this.2
          simp only [hcc, ht, Bool.not_true, Bool.false_eq_true, if_false, reduceIte]
        · have hb : truthyWidth (customWidths col) = false := by
            simp only [Bool.not_eq_true] at ht; exact ht
          have hcc : (columns.filter (fun c => !truthyWidth (customWidths c))).contains col = true :=
            List.elem_iff.mpr (List.mem_filter.mpr ⟨hcol, by simp [hb]⟩)
          simp only [hcc, hb, Bool.not_false, if_true, reduceIte]
      rw [hmap, sum_map_stretched]
      set R := containerWidth - (columns.map (fun c => widthOr (customWidths c) 0)).sum with hR
      set K := ((columns.filter (fun c => !truthyWidth (customWidths c))).length : Int) with hK
      have hid := Int.fdiv_add_fmod R K
      have hnn := Int.fmod_nonneg' R hk
      have hlt2 := Int.fmod_lt_of_pos R hk
      constructor
      · omega
      · omega

/-! ## C6: CSV export / ingestion round trip -/

/-- A value character that `JSON.stringify` copies verbatim: not a
quote, not a backslash, not a control character. -/
def jsonSafeChar (c : Char) : Bool :=
  c ≠ '"' && c ≠ '\\' && decide (0x20 ≤ c.toNat)

/-- A header character the unescaped header line can carry: no comma,
newline or quote. -/
def headerSafeChar (c : Char) : Bool :=
  c ≠ ',' && c ≠ '\n' && c ≠ '"'

/-- Rebuilding a string from its characters. -/
theorem string_mk_toList (s : String) : String.mk s.toList = s := rfl

/-- Strings append on their character lists. -/
theorem toList_append (a b : String) : (a ++ b).toList = a.toList ++ b.toList :=
  String.data_append a b

/-- A safe character escapes to itself. -/
theorem jsonEscapeChar_safe (c : Char) (h : jsonSafeChar c = true) :
    jsonEscapeChar c = [c] := by
  unfold jsonSafeChar at h
  simp only [Bool.and_eq_true, decide_eq_true_eq, ne_eq] at h
  obtain ⟨⟨h1, h2⟩, h3⟩ := h
  unfold jsonEscapeChar
  rw [if_neg h1, if_neg h2,
    if_neg (fun he => by subst he; exact absurd h3 (by decide)),
    if_neg (fun he => by subst he; exact absurd h3 (by decide)),
    if_neg (fun he => by subst he; exact absurd h3 (by decide)),
    if_neg (fun he => by subst he; exact absurd h3 (by decide)),
    if_neg (fun he => by subst he; exact absurd h3 (by decide)),
    if_neg (by omega)]

/-- Escaping a safe character list is the identity. -/
theorem flatten_map_jsonEscape : ∀ (cs : List Char), cs.all jsonSafeChar = true →
    (cs.map jsonEscapeChar).flatten = cs
  | [], _ => rfl
  | c :: cs, h => by
    have hc := (List.all_eq_true.mp h) c (List.mem_cons_self c cs)
    have ht : cs.all jsonSafeChar = true :=
      List.all_eq_true.mpr (fun x hx => (List.all_eq_true.mp h) x (List.mem_cons_of_mem c hx))
    simp only [List.map_cons, List.flatten_cons, jsonEscapeChar_safe c hc,
      flatten_map_jsonEscape cs ht, List.singleton_append]

/-- `JSON.stringify` of a safe value is just the quoted value. -/
theorem jsonStringify_safe (v : String) (hv : v.toList.all jsonSafeChar = true) :
    (jsonStringify v).toList = '"' :: (v.toList ++ ['"']) := by
  unfold jsonStringify
  rw [flatten_map_jsonEscape v.toList hv]
  rfl

/-- One plain-mode step of the scanner. -/
theorem csvLoop_plain_cons (field : List Char) (fields : List (List Char))
    (rows : List (List (List Char))) (c : Char) (rest : List Char) :
    csvLoop .plain field fields rows (c :: rest) =
      if c = ',' then csvLoop .plain [] (fields ++ [field]) rows rest
      else if c = '\n' then csvLoop .plain [] [] (rows ++ [fields ++ [field]]) rest
      else if c = '"' && field = [] then csvLoop .quoted [] fields rows rest
      else csvLoop .plain (field ++ [c]) fields rows rest := rfl

/-- One quoted-mode step of the scanner. -/
theorem csvLoop_quoted_cons (field : List Char) (fields : List (List Char))
    (rows : List (List (List Char))) (c : Char) (rest : List Char) :
    csvLoop .quoted field fields rows (c :: rest) =
      if c = '"' then csvLoop .closing field fields rows rest
      else csvLoop .quoted (field ++ [c]) fields rows rest := rfl

/-- One closing-mode step of the scanner. -/
theorem csvLoop_closing_cons (field : List Char) (fields : List (List Char))
    (rows : List (List (List Char))) (c : Char) (rest : List Char) :
    csvLoop .closing field fields rows (c :: rest) =
      if c = '"' then csvLoop .quoted (field ++ ['"']) fields rows rest
      else if c = ',' then csvLoop .plain [] (fields ++ [field]) rows rest
      else if c = '\n' then csvLoop .plain [] [] (rows ++ [fields ++ [field]]) rest
      else csvLoop .plain (field ++ [c]) fields rows rest := rfl

/-- End of input emits the pending field and record. -/
theorem csvLoop_nil (mode : CsvMode) (field : List Char) (fields : List (List Char))
    (rows : List (List (List Char))) :
    csvLoop mode field fields rows [] = rows ++ [fields ++ [field]] := rfl

/-- Plain scanning of delimiter-free, quote-free characters appends
them to the current field. -/
theorem csvLoop_plain_chars : ∀ (cs : List Char),
    (∀ c ∈ cs, c ≠ ',' ∧ c ≠ '\n' ∧ c ≠ '"') →
    ∀ (field : List Char) (fields : List (List Char)) (rows : List (List (List Char)))
      (rest : List Char),
    csvLoop .plain field fields rows (cs ++ rest) =
      csvLoop .plain (field ++ cs) fields rows rest
  | [], _, field, fields, rows, rest => by simp
  | c :: cs, h, field, fields, rows, rest => by
    obtain ⟨h1, h2, h3⟩ := h c (List.mem_cons_self c cs)
    rw [List.cons_append, csvLoop_plain_cons,
      if_neg h1, if_neg h2, if_neg (by simp [h3]),
      csvLoop_plain_chars cs (fun x hx => h x (List.mem_cons_of_mem c hx))]
    simp

/-- Quoted scanning of quote-free characters appends them to the
current field. -/
theorem csvLoop_quoted_chars : ∀ (cs : List Char), (∀ c ∈ cs, c ≠ '"') →
    ∀ (field : List Char) (fields : List (List Char)) (rows : List (List (List Char)))
      (rest : List Char),
    csvLoop .quoted field fields rows (cs ++ rest) =
      csvLoop .quoted (field ++ cs) fields rows rest
  | [], _, field, fields, rows, rest => by simp
  | c :: cs, h, field, fields, rows, rest => by
    rw [List.cons_append, csvLoop_quoted_cons,
      if_neg (h c (List.mem_cons_self c cs)),
      csvLoop_quoted_chars cs (fun x hx => h x (List.mem_cons_of_mem c hx))]
    simp

/-- Scanning one exported (JSON-stringified) safe field from the start
of a field position consumes it and ends just after its closing
quote. -/
theorem scan_json_field (v : String) (hv : v.toList.all jsonSafeChar = true)
    (fields : List (List Char)) (rows : List (List (List Char))) (rest : List Char) :
    csvLoop .plain [] fields rows ((jsonStringify v).toList ++ rest) =
      csvLoop .closing v.toList fields rows rest := by
  rw [jsonStringify_safe v hv, List.cons_append, csvLoop_plain_cons,
    if_neg (by decide), if_neg (by decide), if_pos (by simp)]
  have hnq : ∀ c ∈ v.toList, c ≠ '"' := by
    intro c hc he
    have := (List.all_eq_true.mp hv) c hc
    subst he
    simp [jsonSafeChar] at this
  rw [show (v.toList ++ ['"']) ++ rest = v.toList ++ ('"' :: rest) by simp,
    csvLoop_quoted_chars v.toList hnq, csvLoop_quoted_cons, if_pos rfl]
  simp

/-- Scanning one exported data record followed by a newline emits the
record (the fields' raw characters) and continues at a fresh record. -/
theorem scan_json_record : ∀ (vs : List String), vs ≠ [] →
    (∀ v ∈ vs, v.toList.all jsonSafeChar = true) →
    ∀ (fields : List (List Char)) (rows : List (List (List Char))) (rest : List Char),
    csvLoop .plain [] fields rows
        ((joinSep "," (vs.map jsonStringify)).toList ++ '\n' :: rest) =
      csvLoop .plain [] [] (rows ++ [fields ++ vs.map String.toList]) rest
  | [], hne, _ => absurd rfl hne
  | [v], _, hs => by
    intro fields rows rest
    have hsv := hs v (List.mem_cons_self v [])
    simp only [List.map_cons, List.map_nil, joinSep]
    rw [scan_json_field v hsv, csvLoop_closing_cons,
      if_neg (by decide), if_neg (by decide), if_pos rfl]
  | v :: v2 :: t, _, hs => by
    intro fields rows rest
    have hsv := hs v (List.mem_cons_self v _)
    simp only [List.map_cons, joinSep]
    rw [toList_append, toList_append,
      show ((jsonStringify v).toList ++ (",").toList ++
          (joinSep "," (jsonStringify v2 :: t.map jsonStringify)).toList) ++ '\n' :: rest =
        (jsonStringify v).toList ++ (',' ::
          ((joinSep "," (jsonStringify v2 :: t.map jsonStringify)).toList ++ '\n' :: rest))
        by simp,
      scan_json_field v hsv, csvLoop_closing_cons,
      if_neg (by decide), if_pos rfl,
      show jsonStringify v2 :: t.map jsonStringify = (v2 :: t).map jsonStringify from rfl,
      scan_json_record (v2 :: t) (by simp)
        (fun x hx => hs x (List.mem_cons_of_mem v hx)) (fields ++ [v.toList]) rows rest]
    simp

/-- Scanning one exported data record at the end of the text emits it. -/
theorem scan_json_record_eof : ∀ (vs : List String), vs ≠ [] →
    (∀ v ∈ vs, v.toList.all jsonSafeChar = true) →
    ∀ (fields : List (List Char)) (rows : List (List (List Char))),
    csvLoop .plain [] fields rows ((joinSep "," (vs.map jsonStringify)).toList) =
      rows ++ [fields ++ vs.map String.toList]
  | [], hne, _ => absurd rfl hne
  | [v], _, hs => by
    intro fields rows
    have hsv := hs v (List.mem_cons_self v [])
    simp only [List.map_cons, List.map_nil, joinSep]
    rw [show (jsonStringify v).toList = (jsonStringify v).toList ++ [] by simp,
      scan_json_field v hsv, csvLoop_nil]
  | v :: v2 :: t, _, hs => by
    intro fields rows
    have hsv := hs v (List.mem_cons_self v _)
    simp only [List.map_cons, joinSep]
    rw [toList_append, toList_append,
      show ((jsonStringify v).toList ++ (",").toList ++
          (joinSep "," (jsonStringify v2 :: t.map jsonStringify)).toList) =
        (jsonStringify v).toList ++ (',' ::
          (joinSep "," (jsonStringify v2 :: t.map jsonStringify)).toList)
        by simp,
      scan_json_field v hsv, csvLoop_closing_cons,
      if_neg (by decide), if_pos rfl,
      show jsonStringify v2 :: t.map jsonStringify = (v2 :: t).map jsonStringify from rfl,
      scan_json_record_eof (v2 :: t) (by simp)
        (fun x hx => hs x (List.mem_cons_of_mem v hx)) (fields ++ [v.toList]) rows]
    simp

/-- Scanning the unescaped header line followed by a newline emits the
headers as the first record. -/
theorem scan_header : ∀ (hs : List String), hs ≠ [] →
    (∀ h ∈ hs, h.toList.all headerSafeChar = true) →
    ∀ (fields : List (List Char)) (rows : List (List (List Char))) (rest : List Char),
    csvLoop .plain [] fields rows ((joinSep "," hs).toList ++ '\n' :: rest) =
      csvLoop .plain [] [] (rows ++ [fields ++ hs.map String.toList]) rest
  | [], hne, _ => absurd rfl hne
  | [h], _, hsafe => by
    intro fields rows rest
    have hch : ∀ c ∈ h.toList, c ≠ ',' ∧ c ≠ '\n' ∧ c ≠ '"' := by
      intro c hc
      have := (List.all_eq_true.mp (hsafe h (List.mem_cons_self h []))) c hc
      simp only [headerSafeChar, Bool.and_eq_true, decide_eq_true_eq, ne_eq] at this
      tauto
    simp only [joinSep]
    rw [csvLoop_plain_chars h.toList hch, csvLoop_plain_cons,
      if_neg (by decide), if_pos rfl]
    simp
  | h :: h2 :: t, _, hsafe => by
    intro fields rows rest
    have hch : ∀ c ∈ h.toList, c ≠ ',' ∧ c ≠ '\n' ∧ c ≠ '"' := by
      intro c hc
      have := (List.all_eq_true.mp (hsafe h (List.mem_cons_self h _))) c hc
      simp only [headerSafeChar, Bool.and_eq_true, decide_eq_true_eq, ne_eq] at this
      tauto
    simp only [joinSep]
    rw [toList_append, toList_append,
      show (h.toList ++ (",").toList ++ (joinSep "," (h2 :: t)).toList) ++ '\n' :: rest =
        h.toList ++ (',' :: ((joinSep "," (h2 :: t)).toList ++ '\n' :: rest)) by simp,
      csvLoop_plain_chars h.toList hch, csvLoop_plain_cons, if_pos rfl]
    simp only [List.nil_append]
    rw [scan_header (h2 :: t) (by simp)
      (fun x hx => hsafe x (List.mem_cons_of_mem h hx)) (fields ++ [h.toList]) rows rest]
    simp

/-- Scanning the header line at the end of the text emits it. -/
theorem scan_header_eof : ∀ (hs : List String), hs ≠ [] →
    (∀ h ∈ hs, h.toList.all headerSafeChar = true) →
    ∀ (fields : List (List Char)) (rows : List (List (List Char))),
    csvLoop .plain [] fields rows ((joinSep "," hs).toList) =
      rows ++ [fields ++ hs.map String.toList]
  | [], hne, _ => absurd rfl hne
  | [h], _, hsafe => by
    intro fields rows
    have hch : ∀ c ∈ h.toList, c ≠ ',' ∧ c ≠ '\n' ∧ c ≠ '"' := by
      intro c hc
      have := (List.all_eq_true.mp (hsafe h (List.mem_cons_self h []))) c hc
      simp only [headerSafeChar, Bool.and_eq_true, decide_eq_true_eq, ne_eq] at this
      tauto
    simp only [joinSep]
    rw [show h.toList = h.toList ++ ([] : List Char) by simp,
      csvLoop_plain_chars h.toList hch, csvLoop_nil]
    simp
  | h :: h2 :: t, _, hsafe => by
    intro fields rows
    have hch : ∀ c ∈ h.toList, c ≠ ',' ∧ c ≠ '\n' ∧ c ≠ '"' := by
      intro c hc
      have := (List.all_eq_true.mp (hsafe h (List.mem_cons_self h _))) c hc
      simp only [headerSafeChar, Bool.and_eq_true, decide_eq_true_eq, ne_eq] at this
      tauto
    simp only [joinSep]
    rw [toList_append, toList_append,
      show (h.toList ++ (",").toList ++ (joinSep "," (h2 :: t)).toList) =
        h.toList ++ (',' :: (joinSep "," (h2 :: t)).toList) by simp,
      csvLoop_plain_chars h.toList hch, csvLoop_plain_cons, if_pos rfl]
    simp only [List.nil_append]
    rw [scan_header_eof (h2 :: t) (by simp)
      (fun x hx => hsafe x (List.mem_cons_of_mem h hx)) (fields ++ [h.toList]) rows]
    simp

/-- Scanning the newline-joined exported data records appends them all. -/
theorem scan_rows : ∀ (rws : List (List String)), rws ≠ [] →
    (∀ vs ∈ rws, vs ≠ [] ∧ ∀ v ∈ vs, v.toList.all jsonSafeChar = true) →
    ∀ (rows : List (List (List Char))),
    csvLoop .plain [] [] rows
        ((joinSep "\n" (rws.map (fun vs => joinSep "," (vs.map jsonStringify)))).toList) =
      rows ++ rws.map (fun vs => vs.map String.toList)
  | [], hne, _ => absurd rfl hne
  | [vs], _, hsafe => by
    intro rows
    obtain ⟨hvne, hvsafe⟩ := hsafe vs (List.mem_cons_self vs [])
    simp only [List.map_cons, List.map_nil, joinSep]
    rw [scan_json_record_eof vs hvne hvsafe [] rows]
    simp
  | vs :: vs2 :: t, _, hsafe => by
    intro rows
    obtain ⟨hvne, hvsafe⟩ := hsafe vs (List.mem_cons_self vs _)
    simp only [List.map_cons, joinSep]
    rw [toList_append, toList_append,
      show ("\n").toList = ['\n'] from rfl,
      List.append_assoc, List.singleton_append,
      scan_json_record vs hvne hvsafe [] rows,
      show (joinSep "," (vs2.map jsonStringify) ::
          t.map (fun vs => joinSep "," (vs.map jsonStringify))) =
        (vs2 :: t).map (fun vs => joinSep "," (vs.map jsonStringify)) from rfl,
      scan_rows (vs2 :: t) (by simp)
        (fun x hx => hsafe x (List.mem_cons_of_mem vs hx))]
    simp

/-- C6 (amended): the export→ingestion round trip holds for every
dataset whose exported values contain no double quote, no backslash and
no control character, exported under at least two headers free of
commas, newlines and quotes: re-ingesting the exported text yields the
header row and, for every exported column of every row, exactly the
exported Row value.  (The character restrictions are forced: the export
escapes fields with `JSON.stringify`, i.e. backslash escapes, while the
ingestion parser speaks RFC 4180 with doubled quotes —
`csv_roundtrip_cex` exhibits the mismatch on a backslash.) -/
theorem csv_roundtrip (rows : List Row) (headers : List String)
    (hlen : 2 ≤ headers.length)
    (hheaders : ∀ h ∈ headers, h.toList.all headerSafeChar = true)
    (hvals : ∀ r ∈ rows, ∀ h ∈ headers, (Row.getD r h).toList.all jsonSafeChar = true) :
    csvParse (exportToCsv rows headers) =
      headers :: rows.map (fun r => headers.map (fun h => Row.getD r h)) := by
  have hhne : headers ≠ [] := by
    intro h; rw [h] at hlen; simp at hlen
  have hrecords : csvLoop .plain [] [] [] (exportToCsv rows headers).toList =
      (headers.map String.toList) ::
        rows.map (fun r => headers.map (fun h => (Row.getD r h).toList)) := by
    unfold exportToCsv
    cases rows with
    | nil =>
      simp only [List.map_nil, joinSep]
      rw [scan_header_eof headers hhne hheaders [] []]
      simp
    | cons r rs =>
      simp only [List.map_cons, joinSep]
      rw [toList_append, toList_append,
        show (joinSep "," headers).toList ++ ("\n").toList ++
            (joinSep "\n" ((joinSep "," (headers.map (fun h => jsonStringify (Row.getD r h)))) ::
              rs.map (fun row => joinSep "," (headers.map (fun h => jsonStringify (Row.getD row h)))))).toList =
          (joinSep "," headers).toList ++ '\n' ::
            (joinSep "\n" ((joinSep "," (headers.map (fun h => jsonStringify (Row.getD r h)))) ::
              rs.map (fun row => joinSep "," (headers.map (fun h => jsonStringify (Row.getD row h)))))).toList
          by simp,
        scan_header headers hhne hheaders [] [],
        show ((joinSep "," (headers.map (fun h => jsonStringify (Row.getD r h)))) ::
            rs.map (fun row => joinSep "," (headers.map (fun h => jsonStringify (Row.getD row h))))) =
          ((r :: rs).map (fun row => headers.map (fun h => Row.getD row h))).map
            (fun vs => joinSep "," (vs.map jsonStringify)) by
          simp only [List.map_map, List.map_cons, Function.comp_def]]
      rw [scan_rows ((r :: rs).map (fun row => headers.map (fun h => Row.getD row h)))
        (by simp)
        (by
          intro vs hvs
          obtain ⟨row, hrow, hveq⟩ := List.mem_map.mp hvs
          subst hveq
          refine ⟨by simpa using hhne, ?_⟩
          intro v hv
          obtain ⟨h, hh, hveq⟩ := List.mem_map.mp hv
          subst hveq
          exact hvals row hrow h hh)]
      simp [List.map_map, Function.comp_def]
  unfold csvParse
  rw [hrecords]
  have hmk : ∀ (l : List String), (l.map String.toList).map (fun f => String.mk f) = l := by
    intro l
    rw [List.map_map]
    have hfun : ((fun f => String.mk f) ∘ String.toList) = fun s : String => s := by
      funext s
      exact string_mk_toList s
    rw [hfun]
    exact List.map_id' l
  rw [List.map_cons, hmk headers]
  have hrowmk : (rows.map (fun r => headers.map (fun h => (Row.getD r h).toList))).map
      (fun fields => fields.map (fun f => String.mk f)) =
      rows.map (fun r => headers.map (fun h => Row.getD r h)) := by
    rw [List.map_map]
    apply List.map_congr_left
    intro r _
    simp only [Function.comp_apply]
    rw [show headers.map (fun h => (Row.getD r h).toList) =
      (headers.map (fun h => Row.getD r h)).map String.toList by rw [List.map_map]; rfl]
    exact hmk _
  rw [hrowmk]
  rw [List.filter_eq_self]
  intro record hrec
  have hlength : record.length = headers.length := by
    rcases List.mem_cons.mp hrec with h | h
    · rw [h]
    · obtain ⟨r, _, hveq⟩ := List.mem_map.mp h
      rw [← hveq]
      simp
  simp only [decide_eq_true_eq]
  intro hbad
  rw [hbad] at hlength
  simp at hlength
  omega

/-- C6 as stated is false: the export escapes fields with
`JSON.stringify`'s backslash escapes (a quote becomes `\"`, not a
doubled `""`), which the CSV ingestion parser does not undo.  The
ingestible value `x\y` comes back from the round trip as `x\\y`. -/
theorem csv_roundtrip_cex :
    csvParse (exportToCsv [[("a", "x\\y"), ("b", "z")]] ["a", "b"]) =
      [["a", "b"], ["x\\\\y", "z"]] ∧
    csvParse (exportToCsv [[("a", "x\\y"), ("b", "z")]] ["a", "b"]) ≠
      [["a", "b"], ["x\\y", "z"]] :=
  ⟨by decide, by decide⟩

/-- Witness for the amended C6: a value containing a comma (so the
quoting actually matters) round-trips exactly. -/
theorem csv_roundtrip_witness :
    csvParse (exportToCsv [[("a", "v,1"), ("b", "w")]] ["a", "b"]) =
      [["a", "b"], ["v,1", "w"]] :=
  csv_roundtrip [[("a", "v,1"), ("b", "w")]] ["a", "b"]
    (by decide) (by decide) (by decide)

/-- Witness for C9: columns `a`, `b`, `c` in a 1000-pixel container
with a 300-pixel custom width on `a`: `a` keeps 300, `b` and `c` each
get the evenly distributed remainder. -/
theorem getColumnWidths_spec_witness :
    getColumnWidths ["a", "b", "c"] 1000 (fun c => if c = "a" then some 300 else none) "a"
      = 300 ∧
    getColumnWidths ["a", "b", "c"] 1000 (fun c => if c = "a" then some 300 else none) "b"
      = getColumnWidths ["a", "b", "c"] 1000 (fun c => if c = "a" then some 300 else none) "c" :=
  ⟨(getColumnWidths_spec _ _ _).1 "a" (by decide) 300 rfl (by decide),
   ((getColumnWidths_spec _ _ _).2 (by decide) (by decide)).1 "b" (by decide) "c" (by decide)⟩

end Ansa
